import Mathlib

/-!
Shallow embedding of `src/pycsou/abc/operator.py`: the operator-kind lattice,
constructors, and the `+`/`*`/scalar/squeeze/specialize combinators, at the
level of operator signatures (class, shape, memoized bounds, instance-patched
attributes).  Shapes are modelled as tuples of integers (`List Int`), the two
memoized bounds as rationals extended with `np.infty`, and every fallible
Python path as an `Except` value carrying the exception class raised.
-/

set_option autoImplicit false

namespace Pycsou

/-- The eight names of `Property._property_list()`:
`("apply", "_lipschitz", "jacobian", "_diff_lipschitz", "single_valued",
"gradient", "prox", "adjoint")`.  `lip` and `diffLip` stand for the strings
`"_lipschitz"` and `"_diff_lipschitz"`. -/
inductive PTag where
  | apply
  | lip
  | jacobian
  | diffLip
  | single_valued
  | gradient
  | prox
  | adjoint
  deriving DecidableEq, Repr

/-- The operator classes of the module (public hierarchy plus `_HomothetyOp`). -/
inductive Cls where
  | Map
  | DiffMap
  | Func
  | DiffFunc
  | ProxFunc
  | LinOp
  | LinFunc
  | SquareOp
  | NormalOp
  | SelfAdjointOp
  | UnitOp
  | ProjOp
  | OrthProjOp
  | PosDefOp
  | HomothetyOp
  deriving DecidableEq, Repr

/-- `Property.properties()` = `set(dir(cls)) ∩ cls._property_list()`.
Reading off the class bodies: `apply` comes from `Apply` (hence every class),
`jacobian` from `Differential`/`Gradient`/`LinOp`, `single_valued` from
`SingledValued` (the `Func` branch), `gradient` from `Gradient`, `prox` from
`Proximal`, `adjoint` from `Adjoint`/`SelfAdjointOp`.  The names
`"_lipschitz"` and `"_diff_lipschitz"` are only ever assigned as instance
attributes inside `__init__`, so they never appear in `dir(cls)` and are in no
class's property set.  All classes below `LinOp` that are not functionals have
exactly `LinOp`'s set. -/
def properties : Cls → Finset PTag
  | .Map => {.apply}
  | .DiffMap => {.apply, .jacobian}
  | .Func => {.apply, .single_valued}
  | .DiffFunc => {.apply, .single_valued, .jacobian, .gradient}
  | .ProxFunc => {.apply, .single_valued, .prox}
  | .LinOp => {.apply, .jacobian, .adjoint}
  | .LinFunc => {.apply, .single_valued, .jacobian, .gradient, .adjoint}
  | _ => {.apply, .jacobian, .adjoint}

/-- Classes that are (or inherit from) `LinOp`: used for `isinstance(·, LinOp)`. -/
def isLinCls : Cls → Bool
  | .LinOp | .LinFunc | .SquareOp | .NormalOp | .SelfAdjointOp | .UnitOp
  | .ProjOp | .OrthProjOp | .PosDefOp | .HomothetyOp => true
  | _ => false

/-- A memoized bound: a rational value or `np.infty`. -/
inductive Bnd where
  | inf
  | val (q : ℚ)
  deriving DecidableEq, Repr

/-- `np.infty`-absorbing addition of bounds. -/
def bndAdd : Bnd → Bnd → Bnd
  | .val a, .val b => .val (a + b)
  | _, _ => .inf

/-- `np.infty`-absorbing multiplication of bounds (no claim exercises the
`0 * inf` corner, which numpy would make `nan`; we keep it absorbing). -/
def bndMul : Bnd → Bnd → Bnd
  | .val a, .val b => .val (a * b)
  | _, _ => .inf

/-- The Python exception classes raised by the modelled code paths. -/
inductive Err where
  | valueError
  | typeError
  | nameError
  | notImplementedError
  | indexError
  | attributeError
  | internal
  deriving DecidableEq, Repr

/-- The per-instance data of an operator: its class, its `_shape` attribute,
its `_lipschitz` attribute, its `_diff_lipschitz` attribute (absent on plain
maps and functionals) and, for `_HomothetyOp`, its `_cst` attribute. -/
structure OpCore where
  cls : Cls
  shape : List Int
  lipB : Bnd
  dlipB : Option Bnd
  cst : Option ℚ
  deriving DecidableEq, Repr

/-- What an instance-patched `jacobian` attribute is: either the bound method
copied from a source instance by `specialize` (calling it returns that source
instance), or a composite closure built by `__add__`/`__mul__` (its value
depends on the operands' methods, which this signature level does not carry). -/
inductive JacPatch where
  | copied (src : OpCore)
  | composite
  deriving DecidableEq, Repr

/-- Which of the hand-written `prox` closures was attached to the instance:
`ProxFunc.__add__`'s lag by the linear functional, `ProxFunc.__mul__`'s
unitary conjugation and homothety rescaling, `_HomothetyOp.__mul__`'s `tau`
rescaling, and `ProxFunc.argshift`'s shift. -/
inductive ProxPatch where
  | linShift
  | unitConj
  | homothetyScale
  | homothetyTau
  | argShiftP
  deriving DecidableEq, Repr

/-- An operator instance signature: its core data, the set of names that were
instance-patched (`setattr`/`types.MethodType` in the source), and the
modelled content of a patched `jacobian`/`prox`. -/
structure OpSig where
  core : OpCore
  patched : Finset PTag
  jacPatch : Option JacPatch
  proxPatch : Option ProxPatch
  deriving DecidableEq

def OpSig.cls (s : OpSig) : Cls := s.core.cls

def OpSig.shape (s : OpSig) : List Int := s.core.shape

/-- A fresh instance with no instance-patched attributes. -/
def leaf (c : OpCore) : OpSig := ⟨c, ∅, none, none⟩

/-- `Map.__init__`'s length check: tensorial shapes (more than two axes) are
rejected with `NotImplementedError`; nothing else about the shape is checked. -/
def mapLenChk (sh : List Int) : Except Err Unit :=
  if sh.length > 2 then .error .notImplementedError else .ok ()

/-- `Func.__init__`'s shape normalization: `shape = tuple(shape)`; a 1-tuple
`(n,)` becomes `(1, n)`; otherwise `shape[0] > 1` raises `ValueError` (an
empty tuple raises `IndexError` at `shape[0]`). -/
def funcShape (sh : List Int) : Except Err (List Int) :=
  match sh with
  | [n] => .ok [1, n]
  | [] => .error .indexError
  | h :: t => if h > 1 then .error .valueError else .ok (h :: t)

/-- `SquareOp.__init__`: if the tuple has more than one entry and
`shape[0] != shape[1]`, raise `ValueError`; then continue with
`(shape[0], shape[0])` (an empty tuple raises `IndexError`). -/
def squareShape (sh : List Int) : Except Err (List Int) := do
  match sh with
  | [] => throw Err.indexError
  | [a] => pure [a, a]
  | a :: b :: _ => if a ≠ b then throw Err.valueError else pure [a, a]

/-- Construction of an instance of a class from a shape tuple, following each
class's `__init__` chain.  `Map` stores the raw shape and `_lipschitz = inf`;
`DiffMap` adds `_diff_lipschitz = inf`; the functional classes normalize the
shape through `Func.__init__` (none of them ever reaches `DiffMap.__init__`,
so a `DiffFunc` has no `_diff_lipschitz` attribute); `LinOp` sets
`_diff_lipschitz = 0`; `LinFunc.__init__` calls `DiffFunc.__init__` (which
stores the normalized shape) and then `LinOp.__init__` (which overwrites
`_shape` with the raw tuple and ends with `_diff_lipschitz = 0`); the square
classes go through `SquareOp.__init__`; `UnitOp` and `OrthProjOp` end by
setting `_lipschitz = 1`.  `_HomothetyOp.__init__` takes `(cst, dim)`, not a
shape, so passing it a single shape argument (as `specialize` would) is a
`TypeError`. -/
def mkInstance (c : Cls) (sh : List Int) : Except Err OpSig := do
  match c with
  | .Map => do
      let _ ← mapLenChk sh
      pure (leaf ⟨.Map, sh, .inf, none, none⟩)
  | .DiffMap => do
      let _ ← mapLenChk sh
      pure (leaf ⟨.DiffMap, sh, .inf, some .inf, none⟩)
  | .Func => do
      let nsh ← funcShape sh
      let _ ← mapLenChk nsh
      pure (leaf ⟨.Func, nsh, .inf, none, none⟩)
  | .DiffFunc => do
      let nsh ← funcShape sh
      let _ ← mapLenChk nsh
      pure (leaf ⟨.DiffFunc, nsh, .inf, none, none⟩)
  | .ProxFunc => do
      let nsh ← funcShape sh
      let _ ← mapLenChk nsh
      pure (leaf ⟨.ProxFunc, nsh, .inf, none, none⟩)
  | .LinOp => do
      let _ ← mapLenChk sh
      pure (leaf ⟨.LinOp, sh, .inf, some (.val 0), none⟩)
  | .LinFunc => do
      let nsh ← funcShape sh
      let _ ← mapLenChk nsh
      let _ ← mapLenChk sh
      pure (leaf ⟨.LinFunc, sh, .inf, some (.val 0), none⟩)
  | .SquareOp => do
      let ssh ← squareShape sh
      let _ ← mapLenChk ssh
      pure (leaf ⟨.SquareOp, ssh, .inf, some (.val 0), none⟩)
  | .NormalOp => do
      let ssh ← squareShape sh
      let _ ← mapLenChk ssh
      pure (leaf ⟨.NormalOp, ssh, .inf, some (.val 0), none⟩)
  | .SelfAdjointOp => do
      let ssh ← squareShape sh
      let _ ← mapLenChk ssh
      pure (leaf ⟨.SelfAdjointOp, ssh, .inf, some (.val 0), none⟩)
  | .UnitOp => do
      let ssh ← squareShape sh
      let _ ← mapLenChk ssh
      pure (leaf ⟨.UnitOp, ssh, .val 1, some (.val 0), none⟩)
  | .ProjOp => do
      let ssh ← squareShape sh
      let _ ← mapLenChk ssh
      pure (leaf ⟨.ProjOp, ssh, .inf, some (.val 0), none⟩)
  | .OrthProjOp => do
      let ssh ← squareShape sh
      let _ ← mapLenChk ssh
      pure (leaf ⟨.OrthProjOp, ssh, .val 1, some (.val 0), none⟩)
  | .PosDefOp => do
      let ssh ← squareShape sh
      let _ ← mapLenChk ssh
      pure (leaf ⟨.PosDefOp, ssh, .inf, some (.val 0), none⟩)
  | .HomothetyOp => throw Err.typeError

/-- `_HomothetyOp(cst, dim)`: `cst` is a real by type here (the source's
`isinstance(cst, numbers.Real)` check), the shape is `(dim, dim)` through the
`SelfAdjointOp` chain, `_lipschitz = abs(cst)` and `_diff_lipschitz = 0`. -/
def mkHomothety (cst : ℚ) (dim : Int) : Except Err OpSig := do
  let ssh ← squareShape [dim, dim]
  let _ ← mapLenChk ssh
  pure (leaf ⟨.HomothetyOp, ssh, .val |cst|, some (.val 0), some cst⟩)

/-- The `out` class used by `squeeze`: `Map._squeeze(out=Func)` serves every
class that does not override `squeeze`; `DiffMap` overrides with
`out=DiffFunc` and `LinOp` with `out=LinFunc` (inherited by all linear
subclasses).  Note `Func`, `DiffFunc` and `ProxFunc` resolve `squeeze` to
`Map.squeeze`, hence target `Func`. -/
def squeezeTarget : Cls → Cls
  | .DiffMap => .DiffFunc
  | .LinOp | .LinFunc | .SquareOp | .NormalOp | .SelfAdjointOp | .UnitOp
  | .ProjOp | .OrthProjOp | .PosDefOp | .HomothetyOp => .LinFunc
  | _ => .Func

/-- `Map.specialize(cast_to)`: identity when `cast_to` is the instance's own
class; raises `ValueError` when the instance's property set is a strict
superset of the target's; otherwise constructs `cast_to(self.shape)` and
copies every property of the source onto it with `setattr`, except that a
`jacobian` is turned into a synthesized `gradient` when the target is
single-valued, and otherwise is copied as a bound method of the source (so
calling it returns the source instance, or keeps the source's own patch). -/
def specialize (s : OpSig) (t : Cls) : Except Err OpSig :=
  if t = s.core.cls then .ok s
  else if properties t ⊂ properties s.core.cls then .error .valueError
  else do
    let obj ← mkInstance t s.core.shape
    let ps := properties s.core.cls
    let hasJ := PTag.jacobian ∈ ps
    let tgtSV := PTag.single_valued ∈ properties t
    pure { obj with
      patched :=
        if hasJ ∧ tgtSV then insert PTag.gradient (ps.erase PTag.jacobian) else ps,
      jacPatch :=
        if hasJ ∧ ¬ tgtSV then
          some (match s.jacPatch with | some p => p | none => JacPatch.copied s.core)
        else none,
      proxPatch := if PTag.prox ∈ ps then s.proxPatch else none }

/-- `Map.squeeze` / `Map._squeeze`: specialize to the class-specific `out`
target when `shape[0] == 1`, otherwise return the instance unchanged (an
empty shape tuple raises `IndexError` at `shape[0]`). -/
def squeezeRun (s : OpSig) : Except Err OpSig :=
  match s.core.shape.head? with
  | none => .error .indexError
  | some h => if h = 1 then specialize s (squeezeTarget s.core.cls) else .ok s

/-- `for Op in _base_operators: if Op.properties() == shared_props: break`.
The seven base property sets are pairwise distinct, so when a match exists the
frozenset iteration order is irrelevant.  When no set matches, the Python loop
falls through with `Op` bound to the last iterated class (order unspecified);
that situation is unreachable for the shared sets the combinators can build
(the family of base sets is closed under intersection, see the lemmas below)
and is modelled as `none`. -/
def findBase (ps : Finset PTag) : Option Cls :=
  if ps = properties .Map then some .Map
  else if ps = properties .DiffMap then some .DiffMap
  else if ps = properties .Func then some .Func
  else if ps = properties .DiffFunc then some .DiffFunc
  else if ps = properties .ProxFunc then some .ProxFunc
  else if ps = properties .LinOp then some .LinOp
  else if ps = properties .LinFunc then some .LinFunc
  else none

/-- The classes tested by `if Op in [LinOp, DiffFunc, LinFunc]`. -/
def addTriple : List Cls := [.LinOp, .DiffFunc, .LinFunc]

/-- Modelled from the spec: `pycutil.broadcast_sum_shapes` lives in
`pycsou.util`, which is not among the sources under verification.  Per the
spec, addition requires the operand shapes to be broadcast-compatible
"(equal, or one side degenerates to a functional broadcastable against the
other)"; we model numpy broadcasting of the two shape tuples over reversed
(trailing-first) axes: each axis pair must be equal or contain a `1`, and the
output takes the other size. -/
def bcastRev : List Int → List Int → Option (List Int)
  | [], ys => some ys
  | x :: xs, [] => some (x :: xs)
  | x :: xs, y :: ys =>
    match bcastRev xs ys with
    | none => none
    | some rest =>
      if x = y then some (x :: rest)
      else if x = 1 then some (y :: rest)
      else if y = 1 then some (x :: rest)
      else none

/-- Modelled from the spec: see `bcastRev`. -/
def broadcast_sum_shapes (a b : List Int) : Option (List Int) :=
  (bcastRev a.reverse b.reverse).map List.reverse

/-- `getattr(f, "_diff_lipschitz") + getattr(g, "_diff_lipschitz")`: raises
`AttributeError` when either operand lacks the attribute. -/
def dlipSum (a b : Option Bnd) : Except Err Bnd :=
  match a, b with
  | some x, some y => .ok (bndAdd x y)
  | _, _ => .error .attributeError

/-- The `_diff_lipschitz` propagation of `Property.__mul__`:
`self._lipschitz * other._diff_lipschitz` when `self` is a `LinOp`,
`self._diff_lipschitz * other._lipschitz ** 2` when `other` is, else
`np.infty`. -/
def dlipMul (self other : OpCore) : Except Err Bnd :=
  if isLinCls self.cls then
    match other.dlipB with
    | some d => .ok (bndMul self.lipB d)
    | none => .error .attributeError
  else if isLinCls other.cls then
    match self.dlipB with
    | some d => .ok (bndMul d (bndMul other.lipB other.lipB))
    | none => .error .attributeError
  else .ok .inf

/-- `Property.__add__` (both operands operators).  Shapes are broadcast,
shared properties are intersected with `prox` discarded, the matching base
class is looked up, `jacobian` is discarded for `LinOp`/`DiffFunc`/`LinFunc`
results and `single_valued` always, a fresh `Op(out_shape)` is built, and the
surviving properties are attached as composite bound methods.  Inside the
loop the numeric branch tests `prop in ["_lispchitz", "_diff_lipschitz"]`:
`"_lispchitz"` (a misspelling of `"_lipschitz"`) names no property at all,
and neither name can be in `shared_props` since `properties()` never contains
them, so the memoized bounds keep the constructor defaults.  The result is
squeezed before being returned. -/
def property_add (self other : OpSig) : Except Err OpSig := do
  let some outShape := broadcast_sum_shapes self.core.shape other.core.shape
    | throw Err.valueError
  let shared0 := (properties self.core.cls ∩ properties other.core.cls).erase PTag.prox
  let some Op := findBase shared0
    | throw Err.internal
  let shared := (if Op ∈ addTriple then shared0.erase PTag.jacobian else shared0).erase
    PTag.single_valued
  let out ← mkInstance Op outShape
  let out ←
    if PTag.diffLip ∈ shared then do
      let v ← dlipSum self.core.dlipB other.core.dlipB
      pure { out with core := { out.core with dlipB := some v } }
    else pure out
  let methodProps := shared.erase PTag.diffLip
  let out := { out with
    patched := methodProps,
    jacPatch := if PTag.jacobian ∈ methodProps then some JacPatch.composite else none }
  squeezeRun out

/-- `Property.__mul__` on two operators (the scalar branch is `scalar_mul`
below).  The shape check is `self.shape[1] == other.shape[0]`; when `self` is
a functional (`shape[0] == 1`) and `jacobian` is shared, `gradient` and
`single_valued` are promoted into the shared set; the rest mirrors
`Property.__add__` except that `apply`/`gradient`/`jacobian`/`adjoint` get
dedicated composite closures and the numeric branches test
`prop == "_lipschitz"` / `prop == "_diff_lipschitz"` (again never members of
the shared set, so the bounds keep the constructor defaults). -/
def property_mul (self other : OpSig) : Except Err OpSig := do
  let some s1 := self.core.shape.get? 1 | throw Err.indexError
  let some o0 := other.core.shape.get? 0 | throw Err.indexError
  if s1 = o0 then pure () else throw Err.valueError
  let some s0 := self.core.shape.get? 0 | throw Err.indexError
  let some o1 := other.core.shape.get? 1 | throw Err.indexError
  let outShape := [s0, o1]
  let shared0 := (properties self.core.cls ∩ properties other.core.cls).erase PTag.prox
  let shared1 :=
    if s0 = 1 ∧ PTag.jacobian ∈ shared0 then
      insert PTag.gradient (insert PTag.single_valued shared0)
    else shared0
  let some Op := findBase shared1
    | throw Err.internal
  let shared := (if Op ∈ addTriple then shared1.erase PTag.jacobian else shared1).erase
    PTag.single_valued
  let out ← mkInstance Op outShape
  let out ←
    if PTag.lip ∈ shared then
      pure { out with core := { out.core with lipB := bndMul self.core.lipB other.core.lipB } }
    else pure out
  let out ←
    if PTag.diffLip ∈ shared then do
      let v ← dlipMul self.core other.core
      pure { out with core := { out.core with dlipB := some v } }
    else pure out
  let methodProps := (shared.erase PTag.lip).erase PTag.diffLip
  let out := { out with
    patched := methodProps,
    jacPatch := if PTag.jacobian ∈ methodProps then some JacPatch.composite else none }
  squeezeRun out

/-- `ProxFunc.__add__` (also reached from `LinFunc.__add__` with the operands
swapped): run `Property.__add__`, and if the other operand is a `LinFunc`,
re-specialize the result to `ProxFunc` and attach the lagged `prox` closure;
finally `return f.squeeze()`. -/
def proxfunc_add (self other : OpSig) : Except Err OpSig := do
  let f ← property_add self other
  if other.core.cls = .LinFunc then do
    let f ← specialize f .ProxFunc
    let f := { f with patched := insert PTag.prox f.patched,
                      proxPatch := some ProxPatch.linShift }
    squeezeRun f
  else
    squeezeRun f

/-- `ProxFunc.__mul__`: run `Property.__mul__`; when the other operand is a
`UnitOp` (or `_HomothetyOp`), the source calls `f.specialize(cast_to=ProxFunc)`
but DISCARDS the result (the call is still evaluated, so its exceptions would
propagate), then attaches the conjugated `prox` closure to the *original*
`f`; finally `return f.squeeze()`. -/
def proxfunc_mul (self other : OpSig) : Except Err OpSig := do
  let f ← property_mul self other
  if other.core.cls = .UnitOp then do
    let _ ← specialize f .ProxFunc
    let f := { f with patched := insert PTag.prox f.patched,
                      proxPatch := some ProxPatch.unitConj }
    squeezeRun f
  else if other.core.cls = .HomothetyOp then do
    let _ ← specialize f .ProxFunc
    let f := { f with patched := insert PTag.prox f.patched,
                      proxPatch := some ProxPatch.homothetyScale }
    squeezeRun f
  else squeezeRun f

/-- `_HomothetyOp.__mul__`: computes `out_op = Property.__mul__(self, other)`
(and for a `ProxFunc` operand evaluates a discarded `specialize` and patches
`prox` on `out_op`), then executes `return outop` — the name `outop` is
undefined (the variable is `out_op`), so every path that reaches the return
raises `NameError`. -/
def homothety_mul (self other : OpSig) : Except Err OpSig := do
  let outOp ← property_mul self other
  if other.core.cls = .ProxFunc then do
    let _ ← specialize outOp .ProxFunc
    let _ := { outOp with patched := insert PTag.prox outOp.patched,
                          proxPatch := some ProxPatch.homothetyTau }
    throw Err.nameError
  else
    throw Err.nameError

/-- Python dispatch of `f + g`: `ProxFunc` and `LinFunc` override `__add__`
(`LinFunc.__add__(self, other)` delegates to `ProxFunc.__add__(other, self)`
with the operands swapped); every other class uses `Property.__add__`. -/
def dunder_add (f g : OpSig) : Except Err OpSig :=
  if f.core.cls = .ProxFunc then proxfunc_add f g
  else if f.core.cls = .LinFunc then proxfunc_add g f
  else property_add f g

/-- Python dispatch of `f * g` for two operators: `ProxFunc` and
`_HomothetyOp` override `__mul__`; every other class uses `Property.__mul__`. -/
def dunder_mul (f g : OpSig) : Except Err OpSig :=
  if f.core.cls = .ProxFunc then proxfunc_mul f g
  else if f.core.cls = .HomothetyOp then homothety_mul f g
  else property_mul f g

/-- The scalar branch of `Property.__mul__` (also what `c * f` reaches through
`__rmul__`): build `_HomothetyOp(c, dim=self.shape[0])` and return
`hmap.__mul__(self)` — which always ends in the `return outop` `NameError`. -/
def scalar_mul (self : OpSig) (c : ℚ) : Except Err OpSig := do
  let some d := self.core.shape.head? | throw Err.indexError
  let hmap ← mkHomothety c d
  homothety_mul hmap self

/-- `Property.__neg__`: `self.__mul__(-1)`. -/
def dunder_neg (self : OpSig) : Except Err OpSig := scalar_mul self (-1)

/-- What calling `jacobian(x)` on an instance returns, at the signature level:
a patched attribute copied by `specialize` returns the source instance it is
bound to; the class methods are `LinOp.jacobian` (`return self`) for the
linear classes, `Differential.jacobian` (`NotImplementedError`) for
`DiffMap`, and a lookup failure (`AttributeError`) for `Map`/`Func`/
`ProxFunc`, which have no `jacobian` at all.  `Gradient.jacobian`
(`DiffFunc`) builds an `ExplicitLinFunc` from the instance's `gradient`
closure and a `composite` patch computes a fresh product operator from the
operands' methods: both depend on data this signature level does not carry
and are left unmodelled (`none`). -/
def jacobianRun (s : OpSig) : Option (Except Err OpCore) :=
  match s.jacPatch with
  | some (.copied src) => some (.ok src)
  | some .composite => none
  | none =>
    if isLinCls s.core.cls then some (.ok s.core)
    else if s.core.cls = .DiffFunc then none
    else if s.core.cls = .DiffMap then some (.error .notImplementedError)
    else some (.error .attributeError)

/-- Did the call return normally (no exception)? -/
def succeeds {α : Type} (e : Except Err α) : Bool :=
  match e with
  | .ok _ => true
  | .error _ => false

end Pycsou

deriving instance DecidableEq for Except

namespace Pycsou

/-- A numeric array along the last axis: a vector of rationals (the engine is
agnostic to the array backend; elementwise arithmetic is all that is used). -/
abbrev Arr := List ℚ

/-- numpy `sigma * arr` (scalar times array, elementwise). -/
def npScale (s : ℚ) (a : Arr) : Arr := a.map (fun x => s * x)

/-- numpy `arr / sigma` (array divided by scalar, elementwise). -/
def npDivS (a : Arr) (s : ℚ) : Arr := a.map (fun x => x / s)

/-- numpy `a - b` (elementwise difference of same-shape arrays). -/
def npSub (a b : Arr) : Arr := List.zipWith (fun x y => x - y) a b

/-- `Proximal.fenchel_prox(arr, sigma)`:
`return arr - sigma * self.prox(arr=arr / sigma, tau=1 / sigma)`, with the
instance's `prox` method abstracted as a function argument. -/
def fenchel_prox (prox : Arr → ℚ → Arr) (arr : Arr) (sigma : ℚ) : Arr :=
  npSub arr (npScale sigma (prox (npDivS arr sigma) (1 / sigma)))

/-- The `prox` closure attached by `ProxFunc.__mul__` when the right operand
is a `UnitOp`:
`lambda obj, arr, tau: other.adjoint(self.prox(other.apply(arr), tau))`. -/
def unitConjProx (fprox : Arr → ℚ → Arr) (uApply uAdjoint : Arr → Arr)
    (arr : Arr) (tau : ℚ) : Arr :=
  uAdjoint (fprox (uApply arr) tau)

/-- Side condition under which `cast_to(self.shape)` succeeds for a two-axis
shape: functional targets need a codomain entry of at most 1, square targets
an equal pair, and `_HomothetyOp` (whose constructor does not take a shape)
always raises. -/
def ctorAccepts (t : Cls) (m n : Int) : Prop :=
  match t with
  | .Func | .DiffFunc | .ProxFunc | .LinFunc => m ≤ 1
  | .SquareOp | .NormalOp | .SelfAdjointOp | .UnitOp
  | .ProjOp | .OrthProjOp | .PosDefOp => m = n
  | .HomothetyOp => False
  | _ => True

/-- Spec-side closed form for the kind of a squeezed `Op(out_shape)` with
codomain entry `m`: squeezing with `m = 1` retargets to the functional
counterpart, except that a `DiffFunc` build cannot survive its own squeeze
(`specialize` refuses `DiffFunc → Func`) and raises `ValueError`. -/
def genAddKind (k : Cls) (m : Int) : Except Err Cls :=
  if m = 1 then
    (if k = .DiffFunc then .error .valueError else .ok (squeezeTarget k))
  else .ok k

/-- Spec-side closed form of the amended capability rule for `f + g` (`m` is
the broadcast codomain entry): on the special dispatch paths — left operand a
`LinFunc`, or a `ProxFunc` summed with a `LinFunc` — the addition raises
`ValueError`; otherwise the kind is the base kind matching the intersection
of the operands' property sets with `prox` discarded, squeezed when `m = 1`. -/
def addKindSpec (cf cg : Cls) (m : Int) : Except Err Cls :=
  if cf = .LinFunc ∨ (cf = .ProxFunc ∧ cg = .LinFunc) then .error .valueError
  else
    match findBase ((properties cf ∩ properties cg).erase PTag.prox) with
    | none => .error .internal
    | some k => genAddKind k m

/-! ## Closed forms of the constructors on two-axis shapes -/

@[simp] lemma mkInstance_Map (m n : Int) :
    mkInstance .Map [m, n] = .ok (leaf ⟨.Map, [m, n], .inf, none, none⟩) := rfl

@[simp] lemma mkInstance_DiffMap (m n : Int) :
    mkInstance .DiffMap [m, n]
      = .ok (leaf ⟨.DiffMap, [m, n], .inf, some .inf, none⟩) := rfl

@[simp] lemma mkInstance_Func (m n : Int) :
    mkInstance .Func [m, n]
      = if 1 < m then .error .valueError
        else .ok (leaf ⟨.Func, [m, n], .inf, none, none⟩) := by
  rcases lt_or_le 1 m with h | h
  · rw [if_pos h]
    simp only [mkInstance, funcShape]
    rw [if_pos h]
    rfl
  · rw [if_neg (not_lt.mpr h)]
    simp only [mkInstance, funcShape]
    rw [if_neg (not_lt.mpr h)]
    rfl

@[simp] lemma mkInstance_DiffFunc (m n : Int) :
    mkInstance .DiffFunc [m, n]
      = if 1 < m then .error .valueError
        else .ok (leaf ⟨.DiffFunc, [m, n], .inf, none, none⟩) := by
  rcases lt_or_le 1 m with h | h
  · rw [if_pos h]
    simp only [mkInstance, funcShape]
    rw [if_pos h]
    rfl
  · rw [if_neg (not_lt.mpr h)]
    simp only [mkInstance, funcShape]
    rw [if_neg (not_lt.mpr h)]
    rfl

@[simp] lemma mkInstance_ProxFunc (m n : Int) :
    mkInstance .ProxFunc [m, n]
      = if 1 < m then .error .valueError
        else .ok (leaf ⟨.ProxFunc, [m, n], .inf, none, none⟩) := by
  rcases lt_or_le 1 m with h | h
  · rw [if_pos h]
    simp only [mkInstance, funcShape]
    rw [if_pos h]
    rfl
  · rw [if_neg (not_lt.mpr h)]
    simp only [mkInstance, funcShape]
    rw [if_neg (not_lt.mpr h)]
    rfl

@[simp] lemma mkInstance_LinOp (m n : Int) :
    mkInstance .LinOp [m, n]
      = .ok (leaf ⟨.LinOp, [m, n], .inf, some (.val 0), none⟩) := rfl

@[simp] lemma mkInstance_LinFunc (m n : Int) :
    mkInstance .LinFunc [m, n]
      = if 1 < m then .error .valueError
        else .ok (leaf ⟨.LinFunc, [m, n], .inf, some (.val 0), none⟩) := by
  rcases lt_or_le 1 m with h | h
  · rw [if_pos h]
    simp only [mkInstance, funcShape]
    rw [if_pos h]
    rfl
  · rw [if_neg (not_lt.mpr h)]
    simp only [mkInstance, funcShape]
    rw [if_neg (not_lt.mpr h)]
    rfl

@[simp] lemma mkInstance_SquareOp (m n : Int) :
    mkInstance .SquareOp [m, n]
      = if m ≠ n then .error .valueError
        else .ok (leaf ⟨.SquareOp, [m, m], .inf, some (.val 0), none⟩) := by
  by_cases h : m = n
  · rw [if_neg (by simp [h])]
    simp only [mkInstance, squareShape]
    rw [if_neg (by simp [h])]
    rfl
  · rw [if_pos h]
    simp only [mkInstance, squareShape]
    rw [if_pos h]
    rfl

@[simp] lemma mkInstance_NormalOp (m n : Int) :
    mkInstance .NormalOp [m, n]
      = if m ≠ n then .error .valueError
        else .ok (leaf ⟨.NormalOp, [m, m], .inf, some (.val 0), none⟩) := by
  by_cases h : m = n
  · rw [if_neg (by simp [h])]
    simp only [mkInstance, squareShape]
    rw [if_neg (by simp [h])]
    rfl
  · rw [if_pos h]
    simp only [mkInstance, squareShape]
    rw [if_pos h]
    rfl

@[simp] lemma mkInstance_SelfAdjointOp (m n : Int) :
    mkInstance .SelfAdjointOp [m, n]
      = if m ≠ n then .error .valueError
        else .ok (leaf ⟨.SelfAdjointOp, [m, m], .inf, some (.val 0), none⟩) := by
  by_cases h : m = n
  · rw [if_neg (by simp [h])]
    simp only [mkInstance, squareShape]
    rw [if_neg (by simp [h])]
    rfl
  · rw [if_pos h]
    simp only [mkInstance, squareShape]
    rw [if_pos h]
    rfl

@[simp] lemma mkInstance_UnitOp (m n : Int) :
    mkInstance .UnitOp [m, n]
      = if m ≠ n then .error .valueError
        else .ok (leaf ⟨.UnitOp, [m, m], .val 1, some (.val 0), none⟩) := by
  by_cases h : m = n
  · rw [if_neg (by simp [h])]
    simp only [mkInstance, squareShape]
    rw [if_neg (by simp [h])]
    rfl
  · rw [if_pos h]
    simp only [mkInstance, squareShape]
    rw [if_pos h]
    rfl

@[simp] lemma mkInstance_ProjOp (m n : Int) :
    mkInstance .ProjOp [m, n]
      = if m ≠ n then .error .valueError
        else .ok (leaf ⟨.ProjOp, [m, m], .inf, some (.val 0), none⟩) := by
  by_cases h : m = n
  · rw [if_neg (by simp [h])]
    simp only [mkInstance, squareShape]
    rw [if_neg (by simp [h])]
    rfl
  · rw [if_pos h]
    simp only [mkInstance, squareShape]
    rw [if_pos h]
    rfl

@[simp] lemma mkInstance_OrthProjOp (m n : Int) :
    mkInstance .OrthProjOp [m, n]
      = if m ≠ n then .error .valueError
        else .ok (leaf ⟨.OrthProjOp, [m, m], .val 1, some (.val 0), none⟩) := by
  by_cases h : m = n
  · rw [if_neg (by simp [h])]
    simp only [mkInstance, squareShape]
    rw [if_neg (by simp [h])]
    rfl
  · rw [if_pos h]
    simp only [mkInstance, squareShape]
    rw [if_pos h]
    rfl

@[simp] lemma mkInstance_PosDefOp (m n : Int) :
    mkInstance .PosDefOp [m, n]
      = if m ≠ n then .error .valueError
        else .ok (leaf ⟨.PosDefOp, [m, m], .inf, some (.val 0), none⟩) := by
  by_cases h : m = n
  · rw [if_neg (by simp [h])]
    simp only [mkInstance, squareShape]
    rw [if_neg (by simp [h])]
    rfl
  · rw [if_pos h]
    simp only [mkInstance, squareShape]
    rw [if_pos h]
    rfl

@[simp] lemma mkInstance_HomothetyOp (m n : Int) :
    mkInstance .HomothetyOp [m, n] = .error .typeError := rfl

/-! ## Theorems for the claims -/

/-- C1: the claim says `(f+g).apply(x) = f.apply(x) + g.apply(x)` for every
pair of shape-compatible operators.  It fails: summing two differentiable
functionals of shape `(1, 2)` raises `ValueError` before any operator is
returned — the freshly built `DiffFunc` sum cannot survive the final
`squeeze`, whose `specialize(cast_to=Func)` refuses to shrink the property
set.  (Independently, the composite methods built in `__add__`'s loop all
close over the loop variable `prop`, so with several shared properties they
all delegate to the last-iterated property.) -/
theorem add_of_difffuncs_raises :
    (do
      let f ← mkInstance .DiffFunc [1, 2]
      let g ← mkInstance .DiffFunc [1, 2]
      dunder_add f g) = .error .valueError := by decide

/-- C2: the claim says `c * f`, `-f`, `f / c` always succeed and scale
`apply`.  They never succeed: `_HomothetyOp.__mul__` ends in `return outop`,
a `NameError` (the variable is `out_op`), and every scalar operation funnels
through it.  Evaluated at `-f` and `3 * f` for a `Map` of shape `(2, 2)`. -/
theorem scalar_ops_raise_nameerror :
    (do let f ← mkInstance .Map [2, 2]; dunder_neg f) = .error .nameError ∧
    (do let f ← mkInstance .Map [2, 2]; scalar_mul f 3) = .error .nameError := by
  decide

/-- C3: the claim says `squeeze` is idempotent on every operator instance.
It is not even total: on a `ProxFunc` of shape `(1, 2)` the very first
`squeeze` raises `ValueError` (`Map.squeeze` targets `Func`, and `specialize`
refuses `ProxFunc → Func`); on a `DiffMap` of shape `(1, 3)` the first
`squeeze` succeeds (yielding a `DiffFunc`) but the second raises. -/
theorem squeeze_not_idempotent :
    (do let f ← mkInstance .ProxFunc [1, 2]; squeezeRun f) = .error .valueError ∧
    succeeds (do let f ← mkInstance .DiffMap [1, 3]; squeezeRun f) = true ∧
    (do
      let f ← mkInstance .DiffMap [1, 3]
      let g ← squeezeRun f
      squeezeRun g) = .error .valueError := by decide

/-- C6: the claim says `lipschitz(f+g) = lipschitz(f) + lipschitz(g)` and
`lipschitz(f*g) = lipschitz(f) * lipschitz(g)`.  Neither propagation ever
runs: the numeric branches test for `"_lispchitz"`/`"_lipschitz"` among the
shared properties, but `properties()` never contains those instance-attribute
names, so the sum/product keeps the constructor default `np.infty`.
Evaluated at the spec's own scenario (homotheties with constants 2 and 3,
`lipschitz` 2 and 3, expected sum bound 5) and at a product of two unitary
operators (`lipschitz` 1 each, expected product bound 1). -/
theorem lipschitz_propagation_never_runs :
    ((do
      let a ← mkHomothety 2 3
      let b ← mkHomothety 3 3
      dunder_add a b).map (fun (s : OpSig) => s.core.lipB)) = .ok .inf ∧
    Bnd.inf ≠ Bnd.val (2 + 3) ∧
    ((do
      let a ← mkInstance .UnitOp [3, 3]
      let b ← mkInstance .UnitOp [3, 3]
      dunder_mul a b).map (fun (s : OpSig) => s.core.lipB)) = .ok .inf ∧
    Bnd.inf ≠ Bnd.val (1 * 1) := by decide

/-- C7: composing a proximable functional of shape `(1, 2)` with a unitary
operator of shape `(2, 2)` does attach the conjugated `prox` closure
`lambda obj, arr, tau: other.adjoint(self.prox(other.apply(arr), tau))`, but
the result's class is `Func`, whose capability set does not include `prox`:
`ProxFunc.__mul__` discards the result of `f.specialize(cast_to=ProxFunc)`.
The last conjunct records that the attached closure implements exactly the
claimed formula `U.adjoint(f.prox(U.apply(x), tau))`. -/
theorem proxfunc_mul_unitop_loses_prox_kind :
    ((do
      let f ← mkInstance .ProxFunc [1, 2]
      let u ← mkInstance .UnitOp [2, 2]
      dunder_mul f u).map
        (fun (s : OpSig) => (s.core.cls, s.proxPatch, decide (PTag.prox ∈ s.patched))))
      = .ok (.Func, some .unitConj, true) ∧
    PTag.prox ∉ properties .Func ∧
    ∀ (p : Arr → ℚ → Arr) (uA uAd : Arr → Arr) (x : Arr) (t : ℚ),
      unitConjProx p uA uAd x t = uAd (p (uA x) t) := by
  refine ⟨by decide, by decide, fun p uA uAd x t => rfl⟩

/-- C8 counterexample: the claim says construction rejects non-positive
sizes and functionals with codomain size other than 1, but `Map((0, -1))`
and `Func((0, 3))` both construct successfully. -/
theorem construction_accepts_invalid_sizes :
    succeeds (mkInstance .Map [0, -1]) = true ∧
    succeeds (mkInstance .Func [0, 3]) = true := by decide

/-- C8 amended: construction validates only the tuple length (at most two
axes) and, for functionals, that the codomain entry after normalizing `(n,)`
to `(1, n)` does not exceed 1; sizes are never checked to be positive. -/
theorem construction_shape_checks (m n : Int) :
    succeeds (mkInstance .Map [m, n]) = true ∧
    (succeeds (mkInstance .Func [m, n]) = true ↔ m ≤ 1) ∧
    succeeds (mkInstance .Map [m, n, n]) = false := by
  refine ⟨rfl, ?_, rfl⟩
  rcases lt_or_le 1 m with hm | hm
  · have hred : mkInstance .Func [m, n] = .error .valueError := by
      simp only [mkInstance, funcShape]
      rw [if_pos hm]
      rfl
    rw [hred]
    constructor
    · intro h
      exact absurd h (by decide)
    · intro h
      omega
  · have hred : mkInstance .Func [m, n]
        = .ok (leaf ⟨.Func, [m, n], .inf, none, none⟩) := by
      simp only [mkInstance, funcShape]
      rw [if_neg (not_lt.mpr hm)]
      rfl
    rw [hred]
    simp [succeeds, hm]

/-- Helper: binding a pure continuation does not change success. -/
lemma succeeds_bind_pure {α β : Type} (e : Except Err α) (g : α → β) :
    succeeds (e >>= fun a => pure (g a)) = succeeds e := by
  cases e <;> rfl

/-- C9 counterexample: the claim says every linear operator instance returns
itself from `jacobian`, but an instance produced by `specialize` carries the
*source's* bound `jacobian` method: specializing a `LinOp` leaf of shape
`(2, 2)` to `SquareOp` yields a `SquareOp` instance whose `jacobian` returns
the original `LinOp` operator — a different object (its class alone differs). -/
theorem specialized_linop_jacobian_returns_source :
    ((do
      let a ← mkInstance .LinOp [2, 2]
      specialize a .SquareOp).map
        (fun (s : OpSig) => (s.core.cls, jacobianRun s)))
      = .ok (.SquareOp, some (.ok ⟨.LinOp, [2, 2], .inf, some (.val 0), none⟩)) ∧
    Cls.LinOp ≠ Cls.SquareOp := by decide

/-- C9 amended: every linear-kind instance whose `jacobian` attribute has not
been instance-patched returns itself from `jacobian` (`LinOp.jacobian` is
`return self`), and every linear-class construction from a two-axis shape
sets `_diff_lipschitz` to exactly 0. -/
theorem linop_jacobian_self_and_dlip_zero (s : OpSig) (c : Cls) (m n : Int)
    (r : OpSig) (hs : isLinCls s.core.cls = true) (hp : s.jacPatch = none)
    (hc : isLinCls c = true) (hr : mkInstance c [m, n] = .ok r) :
    jacobianRun s = some (.ok s.core) ∧ r.core.dlipB = some (.val 0) := by
  constructor
  · simp [jacobianRun, hp, hs]
  · rcases c
    all_goals try exact absurd hc (by decide)
    all_goals
      simp only [mkInstance_LinOp, mkInstance_LinFunc, mkInstance_SquareOp,
        mkInstance_NormalOp, mkInstance_SelfAdjointOp, mkInstance_UnitOp,
        mkInstance_ProjOp, mkInstance_OrthProjOp, mkInstance_PosDefOp,
        mkInstance_HomothetyOp] at hr
    all_goals try split_ifs at hr
    all_goals first
      | exact Except.noConfusion hr
      | (cases hr; rfl)

/-- C9 witness: the amended theorem applied to a `LinOp` leaf of shape
`(2, 3)` and to the `UnitOp` constructor at shape `(3, 3)`. -/
theorem linop_jacobian_self_and_dlip_zero_witness :
    (isLinCls (leaf ⟨.LinOp, [2, 3], .inf, some (.val 0), none⟩).core.cls = true ∧
      (leaf ⟨.LinOp, [2, 3], .inf, some (.val 0), none⟩).jacPatch = none ∧
      isLinCls .UnitOp = true ∧
      mkInstance .UnitOp [3, 3]
        = .ok (leaf ⟨.UnitOp, [3, 3], .val 1, some (.val 0), none⟩)) ∧
    (jacobianRun (leaf ⟨.LinOp, [2, 3], .inf, some (.val 0), none⟩)
        = some (.ok ⟨.LinOp, [2, 3], .inf, some (.val 0), none⟩) ∧
      (leaf ⟨.UnitOp, [3, 3], .val 1, some (.val 0), none⟩).core.dlipB
        = some (.val 0)) :=
  ⟨⟨by decide, rfl, by decide, by decide⟩,
    linop_jacobian_self_and_dlip_zero _ .UnitOp 3 3 _ (by decide) rfl (by decide)
      (by decide)⟩

/-- C4 counterexample: the claim says specializing a plain `Map` to
`LinearOperator` must fail (a target needing capabilities the instance
lacks), but it succeeds: `specialize` only rejects targets whose property
set is a *strict subset* of the instance's. -/
theorem specialize_map_to_linop_succeeds :
    ((do
      let f ← mkInstance .Map [3, 2]
      specialize f .LinOp).map (fun (s : OpSig) => s.core.cls))
      = .ok .LinOp := by decide

/-- C4 amended: for an instance of two-axis shape, `specialize(instance, t)`
succeeds exactly when `t` is the instance's own class, or the target's
property set is NOT a strict subset of the instance's (so capability-adding
upcasts are allowed) and the target's constructor accepts the shape.  In
particular it fails precisely on proper capability-narrowing and on
constructor-rejected shapes — not on capability-manufacturing. -/
theorem specialize_success_characterization (s : OpSig) (t : Cls) (m n : Int)
    (hsh : s.core.shape = [m, n]) :
    succeeds (specialize s t) = true ↔
      (t = s.core.cls ∨
        (¬ properties t ⊂ properties s.core.cls ∧ ctorAccepts t m n)) := by
  unfold specialize
  by_cases h1 : t = s.core.cls
  · simp [h1, succeeds]
  · rw [if_neg h1]
    by_cases h2 : properties t ⊂ properties s.core.cls
    · rw [if_pos h2]
      simp [succeeds, h1, h2]
    · rw [if_neg h2]
      rw [hsh]
      rcases t <;>
        simp [ctorAccepts, succeeds, succeeds_bind_pure, h1, h2] <;>
        split_ifs <;>
        simp_all [succeeds]

/-- C4 witness: the characterization applied to a `Map` leaf of shape
`(3, 2)` with target `LinOp`. -/
theorem specialize_success_characterization_witness :
    (leaf ⟨.Map, [3, 2], .inf, none, none⟩).core.shape = [3, 2] ∧
    (succeeds (specialize (leaf ⟨.Map, [3, 2], .inf, none, none⟩) .LinOp) = true ↔
      (Cls.LinOp = (leaf ⟨.Map, [3, 2], .inf, none, none⟩).core.cls ∨
        (¬ properties .LinOp
              ⊂ properties (leaf ⟨.Map, [3, 2], .inf, none, none⟩).core.cls ∧
          ctorAccepts .LinOp 3 2))) :=
  ⟨rfl, specialize_success_characterization _ _ _ _ rfl⟩

/-- C10: `fenchel_prox` implements the Moreau identity
`arr - sigma * prox(arr / sigma, 1 / sigma)` elementwise: entry `i` of the
result is `arr[i] - sigma * prox(arr / sigma, 1 / sigma)[i]`. -/
theorem fenchel_prox_moreau (prox : Arr → ℚ → Arr) (arr : Arr) (sigma : ℚ) :
    fenchel_prox prox arr sigma
      = List.zipWith (fun x y => x - sigma * y) arr
          (prox (npDivS arr sigma) (1 / sigma)) := by
  unfold fenchel_prox npSub npScale
  rw [List.zipWith_map_right]


lemma map_ok_inv {α β : Type} {e : Except Err α} {h : α → β} {b : β}
    (he : e.map h = .ok b) : ∃ a, e = .ok a ∧ h a = b := by
  cases e with
  | ok a => exact ⟨a, rfl, by simpa [Except.map] using he⟩
  | error e2 => simp [Except.map] at he

lemma map_error_inv {α β : Type} {e : Except Err α} {h : α → β} {ε : Err}
    (he : e.map h = .error ε) : e = .error ε := by
  cases e with
  | ok a => simp [Except.map] at he
  | error e2 => simpa [Except.map] using he

lemma findBase_some {S : Finset PTag} {k : Cls} (h : findBase S = some k) :
    S = properties k ∧ (k = .Map ∨ k = .DiffMap ∨ k = .Func ∨ k = .DiffFunc ∨
      k = .ProxFunc ∨ k = .LinOp ∨ k = .LinFunc) := by
  unfold findBase at h
  split_ifs at h with h1 h2 h3 h4 h5 h6 h7 <;> simp_all

lemma broadcast_two (mf mg n mo : Int) (hcomp : mf = mg ∨ mf = 1 ∨ mg = 1)
    (hmo : mo = if mf = 1 then mg else mf) :
    broadcast_sum_shapes [mf, n] [mg, n] = some [mo, n] := by
  rcases hcomp with h | h | h
  · subst h
    have : mo = mf := by rw [hmo]; split_ifs with h1 <;> omega
    subst this
    simp [broadcast_sum_shapes, bcastRev]
  · subst h
    have : mo = mg := by rw [hmo]; simp
    subst this
    by_cases hg : 1 = mo
    · simp [broadcast_sum_shapes, bcastRev, hg]
    · simp [broadcast_sum_shapes, bcastRev, hg]
  · subst h
    by_cases hf : mf = 1
    · have : mo = 1 := by rw [hmo]; simp [hf]
      subst this
      simp [broadcast_sum_shapes, bcastRev, hf]
    · have : mo = mf := by rw [hmo]; simp [hf]
      subst this
      simp [broadcast_sum_shapes, bcastRev, hf]

lemma property_add_spec (f g : OpSig) (mf mg n mo : Int)
    (hfs : f.core.shape = [mf, n]) (hgs : g.core.shape = [mg, n])
    (hfc : PTag.single_valued ∈ properties f.core.cls → mf = 1)
    (hgc : PTag.single_valued ∈ properties g.core.cls → mg = 1)
    (hcomp : mf = mg ∨ mf = 1 ∨ mg = 1)
    (hmo : mo = if mf = 1 then mg else mf) :
    (property_add f g).map (fun (s : OpSig) => (s.core.cls, s.core.shape))
      = match findBase ((properties f.core.cls ∩ properties g.core.cls).erase
          PTag.prox) with
        | none => .error .internal
        | some k => (genAddKind k mo).map (fun c => (c, [mo, n])) := by
  have hbc : broadcast_sum_shapes f.core.shape g.core.shape = some [mo, n] := by
    rw [hfs, hgs]; exact broadcast_two mf mg n mo hcomp hmo
  unfold property_add
  rw [hbc]
  dsimp only
  cases hfb : findBase ((properties f.core.cls ∩ properties g.core.cls).erase
      PTag.prox) with
  | none => rfl
  | some k =>
    obtain ⟨hS, hk⟩ := findBase_some hfb
    have hpf : PTag.single_valued ∈ properties f.core.cls →
        PTag.single_valued ∈ properties g.core.cls → mo = 1 := by
      intro h1 h2
      rw [hmo, hfc h1]
      simp [hgc h2]
    rcases hk with rfl | rfl | rfl | rfl | rfl | rfl | rfl
    · -- Map
      rw [hS]
      by_cases hm1 : mo = 1
      · subst hm1
        rfl
      · show Except.map (fun (s : OpSig) => (s.core.cls, s.core.shape))
            (squeezeRun ⟨⟨.Map, [mo, n], .inf, none, none⟩, {PTag.apply}, none,
              none⟩)
            = (genAddKind .Map mo).map (fun c => (c, [mo, n]))
        unfold squeezeRun genAddKind
        dsimp only [List.head?]
        rw [if_neg hm1, if_neg hm1]
        rfl
    · -- DiffMap
      rw [hS]
      by_cases hm1 : mo = 1
      · subst hm1
        rfl
      · show Except.map (fun (s : OpSig) => (s.core.cls, s.core.shape))
            (squeezeRun ⟨⟨.DiffMap, [mo, n], .inf, some .inf, none⟩,
              {PTag.apply, PTag.jacobian}, some .composite, none⟩)
            = (genAddKind .DiffMap mo).map (fun c => (c, [mo, n]))
        unfold squeezeRun genAddKind
        dsimp only [List.head?]
        rw [if_neg hm1, if_neg hm1]
        rfl
    · -- Func
      have hsv : PTag.single_valued ∈
          (properties f.core.cls ∩ properties g.core.cls).erase PTag.prox := by
        rw [hS]; decide
      have hsv2 := Finset.mem_inter.mp (Finset.mem_of_mem_erase hsv)
      have hm1 : mo = 1 := hpf hsv2.1 hsv2.2
      subst hm1
      rw [hS]
      rfl
    · -- DiffFunc
      have hsv : PTag.single_valued ∈
          (properties f.core.cls ∩ properties g.core.cls).erase PTag.prox := by
        rw [hS]; decide
      have hsv2 := Finset.mem_inter.mp (Finset.mem_of_mem_erase hsv)
      have hm1 : mo = 1 := hpf hsv2.1 hsv2.2
      subst hm1
      rw [hS]
      rfl
    · -- ProxFunc: impossible, `prox` was erased from the shared set
      exfalso
      have hnp : PTag.prox ∉
          (properties f.core.cls ∩ properties g.core.cls).erase PTag.prox :=
        Finset.not_mem_erase _ _
      rw [hS] at hnp
      exact hnp (by decide)
    · -- LinOp
      rw [hS]
      by_cases hm1 : mo = 1
      · subst hm1
        rfl
      · show Except.map (fun (s : OpSig) => (s.core.cls, s.core.shape))
            (squeezeRun ⟨⟨.LinOp, [mo, n], .inf, some (.val 0), none⟩,
              {PTag.apply, PTag.adjoint}, none, none⟩)
            = (genAddKind .LinOp mo).map (fun c => (c, [mo, n]))
        unfold squeezeRun genAddKind
        dsimp only [List.head?]
        rw [if_neg hm1, if_neg hm1]
        rfl
    · -- LinFunc
      have hsv : PTag.single_valued ∈
          (properties f.core.cls ∩ properties g.core.cls).erase PTag.prox := by
        rw [hS]; decide
      have hsv2 := Finset.mem_inter.mp (Finset.mem_of_mem_erase hsv)
      have hm1 : mo = 1 := hpf hsv2.1 hsv2.2
      subst hm1
      rw [hS]
      rfl



lemma findBase_inter (c1 c2 : Cls) :
    findBase ((properties c1 ∩ properties c2).erase PTag.prox) ≠ none := by
  rcases c1 <;> rcases c2 <;> decide

lemma squeezeRun_fixed (r : OpSig) (n : Int)
    (hc : squeezeTarget r.core.cls = r.core.cls) (hsh : r.core.shape = [1, n]) :
    squeezeRun r = .ok r := by
  unfold squeezeRun
  rw [hsh]
  dsimp only [List.head?]
  rw [if_pos rfl]
  unfold specialize
  rw [hc, if_pos rfl]

lemma squeezeRun_noop (r : OpSig) (m n : Int)
    (hsh : r.core.shape = [m, n]) (hm : m ≠ 1) : squeezeRun r = .ok r := by
  unfold squeezeRun
  rw [hsh]
  dsimp only [List.head?]
  rw [if_neg hm]

@[simp] lemma ok_bind {α β : Type} (a : α) (fn : α → Except Err β) :
    (Except.ok a >>= fn) = fn a := rfl

@[simp] lemma error_bind {α β : Type} (e : Err) (fn : α → Except Err β) :
    ((Except.error e : Except Err α) >>= fn) = Except.error e := rfl

lemma specialize_proxfunc_fails (r : OpSig) (m n : Int)
    (hsh : r.core.shape = [m, n]) (hm : 1 < m)
    (hne : ¬ Cls.ProxFunc = r.core.cls)
    (hc : ¬ properties .ProxFunc ⊂ properties r.core.cls) :
    specialize r .ProxFunc = .error .valueError := by
  unfold specialize
  rw [if_neg hne, if_neg hc, hsh, mkInstance_ProxFunc, if_pos hm]
  rfl

theorem add_capability_rule (f g : OpSig) (mf mg n : Int)
    (hfs : f.core.shape = [mf, n]) (hgs : g.core.shape = [mg, n])
    (hmf : 1 ≤ mf) (hmg : 1 ≤ mg)
    (hcomp : mf = mg ∨ mf = 1 ∨ mg = 1)
    (hfc : PTag.single_valued ∈ properties f.core.cls → mf = 1)
    (hgc : PTag.single_valued ∈ properties g.core.cls → mg = 1) :
    (dunder_add f g).map OpSig.cls
      = addKindSpec f.core.cls g.core.cls (if mf = 1 then mg else mf) := by
  unfold dunder_add
  by_cases hP : f.core.cls = .ProxFunc
  · rw [if_pos hP]
    by_cases hL : g.core.cls = .LinFunc
    · -- ProxFunc + LinFunc: the prox special case dies in the final squeeze
      have hmf1 : mf = 1 := hfc (by rw [hP]; decide)
      have hmg1 : mg = 1 := hgc (by rw [hL]; decide)
      subst hmf1
      subst hmg1
      have hmain := property_add_spec f g 1 1 n 1 hfs hgs hfc hgc (Or.inl rfl)
        (by simp)
      rw [hP, hL] at hmain
      rw [show findBase ((properties Cls.ProxFunc ∩ properties Cls.LinFunc).erase
          PTag.prox) = some .Func from by decide] at hmain
      dsimp only at hmain
      obtain ⟨r, hrP, hpair⟩ := map_ok_inv hmain
      unfold proxfunc_add
      rw [hrP]
      simp only [ok_bind]
      rw [if_pos hL]
      obtain ⟨⟨rc, rsh, rl, rd, rcst⟩, rp, rj, rx⟩ := r
      rw [Prod.mk.injEq] at hpair
      obtain ⟨h1, h2⟩ := hpair
      dsimp only at h1 h2
      subst h1
      subst h2
      rw [hP, hL]
      rfl
    · -- ProxFunc + (not LinFunc): generic result, harmless second squeeze
      have hmf1 : mf = 1 := hfc (by rw [hP]; decide)
      subst hmf1
      have hcond : ¬ (f.core.cls = Cls.LinFunc ∨
          (f.core.cls = Cls.ProxFunc ∧ g.core.cls = Cls.LinFunc)) := by
        rintro (h | ⟨h, h2⟩)
        · exact Cls.noConfusion (hP.symm.trans h)
        · exact hL h2
      have hmain := property_add_spec f g 1 mg n mg hfs hgs hfc hgc
        (Or.inr (Or.inl rfl)) (by simp)
      have hsub : ∀ x ∈ (properties f.core.cls ∩ properties g.core.cls).erase
          PTag.prox, x = PTag.apply ∨ x = PTag.single_valued := by
        intro x hx
        have h1 := (Finset.mem_inter.mp (Finset.mem_of_mem_erase hx)).1
        have h3 := Finset.ne_of_mem_erase hx
        rw [hP] at h1
        rcases x
        · exact Or.inl rfl
        · exact absurd h1 (by decide)
        · exact absurd h1 (by decide)
        · exact absurd h1 (by decide)
        · exact Or.inr rfl
        · exact absurd h1 (by decide)
        · exact absurd rfl h3
        · exact absurd h1 (by decide)
      unfold proxfunc_add
      unfold addKindSpec
      rw [if_neg hcond]
      rw [show (if (1 : Int) = 1 then mg else 1) = mg from if_pos rfl]
      cases hfb : findBase ((properties f.core.cls ∩ properties g.core.cls).erase
          PTag.prox) with
      | none =>
        rw [hfb] at hmain
        dsimp only at hmain
        rw [map_error_inv hmain]
        rfl
      | some k =>
        obtain ⟨hS, hk⟩ := findBase_some hfb
        have hks : k = .Map ∨ k = .Func := by
          rcases hk with rfl | rfl | rfl | rfl | rfl | rfl | rfl
          · exact Or.inl rfl
          · exact absurd (hsub PTag.jacobian (by rw [hS]; decide)) (by decide)
          · exact Or.inr rfl
          · exact absurd (hsub PTag.jacobian (by rw [hS]; decide)) (by decide)
          · exact absurd (hsub PTag.prox (by rw [hS]; decide)) (by decide)
          · exact absurd (hsub PTag.adjoint (by rw [hS]; decide)) (by decide)
          · exact absurd (hsub PTag.adjoint (by rw [hS]; decide)) (by decide)
        rw [hfb] at hmain
        dsimp only at hmain ⊢
        rcases hks with rfl | rfl
        · -- base kind Map
          by_cases hm1 : mg = 1
          · subst hm1
            obtain ⟨r, hrP, hpair⟩ := map_ok_inv hmain
            have hc1 : r.core.cls = Cls.Func := congrArg Prod.fst hpair
            rw [hrP]
            simp only [ok_bind]
            rw [if_neg hL]
            rw [squeezeRun_fixed r n (by rw [hc1]; rfl) (congrArg Prod.snd hpair)]
            simp [Except.map, OpSig.cls, hc1, genAddKind, squeezeTarget]
          · unfold genAddKind at hmain ⊢
            rw [if_neg hm1] at hmain ⊢
            obtain ⟨r, hrP, hpair⟩ := map_ok_inv hmain
            have hc1 : r.core.cls = Cls.Map := congrArg Prod.fst hpair
            rw [hrP]
            simp only [ok_bind]
            rw [if_neg hL]
            rw [squeezeRun_noop r mg n (congrArg Prod.snd hpair) hm1]
            simp [Except.map, OpSig.cls, hc1]
        · -- base kind Func
          have hmg1 : mg = 1 := hgc ((Finset.mem_inter.mp (Finset.mem_of_mem_erase
            (show PTag.single_valued ∈ _ from by rw [hS]; decide))).2)
          subst hmg1
          obtain ⟨r, hrP, hpair⟩ := map_ok_inv hmain
          have hc1 : r.core.cls = Cls.Func := congrArg Prod.fst hpair
          rw [hrP]
          simp only [ok_bind]
          rw [if_neg hL]
          rw [squeezeRun_fixed r n (by rw [hc1]; rfl) (congrArg Prod.snd hpair)]
          simp [Except.map, OpSig.cls, hc1, genAddKind, squeezeTarget]
  · rw [if_neg hP]
    by_cases hLF : f.core.cls = .LinFunc
    · -- LinFunc.__add__ delegates to ProxFunc.__add__ with swapped operands
      rw [if_pos hLF]
      have hmf1 : mf = 1 := hfc (by rw [hLF]; decide)
      subst hmf1
      have hmain := property_add_spec g f mg 1 n mg hgs hfs hgc hfc
        (Or.inr (Or.inr rfl)) (by split_ifs with h <;> omega)
      unfold proxfunc_add
      unfold addKindSpec
      rw [if_pos (Or.inl hLF)]
      cases hfb : findBase ((properties g.core.cls ∩ properties f.core.cls).erase
          PTag.prox) with
      | none => exact absurd hfb (findBase_inter _ _)
      | some k =>
        obtain ⟨hS, hk⟩ := findBase_some hfb
        rw [hfb] at hmain
        dsimp only at hmain
        by_cases hm1 : mg = 1
        · subst hm1
          rcases hk with rfl | rfl | rfl | rfl | rfl | rfl | rfl
          · -- Map: squeezed to Func, then ProxFunc cast, final squeeze dies
            obtain ⟨r, hrP, hpair⟩ := map_ok_inv hmain
            rw [hrP]
            simp only [ok_bind]
            rw [if_pos hLF]
            obtain ⟨⟨rc, rsh, rl, rd, rcst⟩, rp, rj, rx⟩ := r
            rw [Prod.mk.injEq] at hpair
            obtain ⟨h1, h2⟩ := hpair
            dsimp only at h1 h2
            subst h1
            subst h2
            rfl
          · -- DiffMap: squeezed to DiffFunc, then ProxFunc cast, squeeze dies
            obtain ⟨r, hrP, hpair⟩ := map_ok_inv hmain
            rw [hrP]
            simp only [ok_bind]
            rw [if_pos hLF]
            obtain ⟨⟨rc, rsh, rl, rd, rcst⟩, rp, rj, rx⟩ := r
            rw [Prod.mk.injEq] at hpair
            obtain ⟨h1, h2⟩ := hpair
            dsimp only at h1 h2
            subst h1
            subst h2
            rfl
          · -- Func
            obtain ⟨r, hrP, hpair⟩ := map_ok_inv hmain
            rw [hrP]
            simp only [ok_bind]
            rw [if_pos hLF]
            obtain ⟨⟨rc, rsh, rl, rd, rcst⟩, rp, rj, rx⟩ := r
            rw [Prod.mk.injEq] at hpair
            obtain ⟨h1, h2⟩ := hpair
            dsimp only at h1 h2
            subst h1
            subst h2
            rfl
          · -- DiffFunc: Property.__add__ already raises in its own squeeze
            rw [map_error_inv hmain]
            rfl
          · -- ProxFunc: impossible, prox was erased from the shared set
            exfalso
            have hnp : PTag.prox ∉
                (properties g.core.cls ∩ properties f.core.cls).erase PTag.prox :=
              Finset.not_mem_erase _ _
            rw [hS] at hnp
            exact hnp (by decide)
          · -- LinOp: squeezed to LinFunc, then ProxFunc cast, squeeze dies
            obtain ⟨r, hrP, hpair⟩ := map_ok_inv hmain
            rw [hrP]
            simp only [ok_bind]
            rw [if_pos hLF]
            obtain ⟨⟨rc, rsh, rl, rd, rcst⟩, rp, rj, rx⟩ := r
            rw [Prod.mk.injEq] at hpair
            obtain ⟨h1, h2⟩ := hpair
            dsimp only at h1 h2
            subst h1
            subst h2
            rfl
          · -- LinFunc
            obtain ⟨r, hrP, hpair⟩ := map_ok_inv hmain
            rw [hrP]
            simp only [ok_bind]
            rw [if_pos hLF]
            obtain ⟨⟨rc, rsh, rl, rd, rcst⟩, rp, rj, rx⟩ := r
            rw [Prod.mk.injEq] at hpair
            obtain ⟨h1, h2⟩ := hpair
            dsimp only at h1 h2
            subst h1
            subst h2
            rfl
        · -- mg > 1: the ProxFunc cast's constructor rejects the shape
          have hk3 : k = .Map ∨ k = .DiffMap ∨ k = .LinOp := by
            rcases hk with rfl | rfl | rfl | rfl | rfl | rfl | rfl
            · exact Or.inl rfl
            · exact Or.inr (Or.inl rfl)
            · exact absurd (hgc ((Finset.mem_inter.mp (Finset.mem_of_mem_erase
                (show PTag.single_valued ∈ _ from by rw [hS]; decide))).1)) hm1
            · exact absurd (hgc ((Finset.mem_inter.mp (Finset.mem_of_mem_erase
                (show PTag.single_valued ∈ _ from by rw [hS]; decide))).1)) hm1
            · exact absurd (hgc ((Finset.mem_inter.mp (Finset.mem_of_mem_erase
                (show PTag.single_valued ∈ _ from by rw [hS]; decide))).1)) hm1
            · exact Or.inr (Or.inr rfl)
            · exact absurd (hgc ((Finset.mem_inter.mp (Finset.mem_of_mem_erase
                (show PTag.single_valued ∈ _ from by rw [hS]; decide))).1)) hm1
          have hgt : (1 : Int) < mg := lt_of_le_of_ne hmg (Ne.symm hm1)
          unfold genAddKind at hmain
          rw [if_neg hm1] at hmain
          obtain ⟨r, hrP, hpair⟩ := map_ok_inv hmain
          have hc1 : r.core.cls = k := congrArg Prod.fst hpair
          have hsh2 : r.core.shape = [mg, n] := congrArg Prod.snd hpair
          rw [hrP]
          simp only [ok_bind]
          rw [if_pos hLF]
          rw [specialize_proxfunc_fails r mg n hsh2 hgt
            (by rw [hc1]; rcases hk3 with rfl | rfl | rfl <;> decide)
            (by rw [hc1]; rcases hk3 with rfl | rfl | rfl <;> decide)]
          rfl
    · -- generic dispatch: Property.__add__
      rw [if_neg hLF]
      have hcond : ¬ (f.core.cls = .LinFunc ∨
          (f.core.cls = .ProxFunc ∧ g.core.cls = .LinFunc)) := by
        rintro (h | ⟨h, h2⟩)
        · exact hLF h
        · exact hP h
      have hmain := property_add_spec f g mf mg n (if mf = 1 then mg else mf)
        hfs hgs hfc hgc hcomp rfl
      unfold addKindSpec
      rw [if_neg hcond]
      cases hfb : findBase ((properties f.core.cls ∩ properties g.core.cls).erase
          PTag.prox) with
      | none =>
        rw [hfb] at hmain
        dsimp only at hmain ⊢
        rw [map_error_inv hmain]
        rfl
      | some k =>
        rw [hfb] at hmain
        dsimp only at hmain ⊢
        cases hg : genAddKind k (if mf = 1 then mg else mf) with
        | error e =>
          rw [hg] at hmain
          rw [map_error_inv hmain]
          rfl
        | ok c =>
          rw [hg] at hmain
          obtain ⟨r, hr, hpair⟩ := map_ok_inv hmain
          rw [hr]
          have hcls : r.core.cls = c := congrArg Prod.fst hpair
          simp [Except.map, OpSig.cls, hcls]

/-- C5 counterexample: the claim predicts that `ProxFunc + LinFunc` yields an
operator whose capability set is the intersection rule's `{apply,
single-valued}` (a `Functional`); instead the special prox path re-casts the
sum to `ProxFunc` and the final `squeeze` then raises `ValueError`. -/
theorem proxfunc_plus_linfunc_raises :
    (do
      let f ← mkInstance .ProxFunc [1, 2]
      let g ← mkInstance .LinFunc [1, 2]
      dunder_add f g) = .error .valueError := by decide

/-- C5 witness: the amended rule applied to a `DiffMap` leaf plus a `LinOp`
leaf, both of shape `(3, 2)`: the sum has kind `DiffMap` (the base kind of
`{apply, jacobian}`, not squeezed since the codomain is 3). -/
theorem add_capability_rule_witness :
    ((leaf ⟨.DiffMap, [3, 2], .inf, some .inf, none⟩).core.shape = [3, 2] ∧
      (leaf ⟨.LinOp, [3, 2], .inf, some (.val 0), none⟩).core.shape = [3, 2] ∧
      (1 : Int) ≤ 3 ∧
      ((3 : Int) = 3 ∨ (3 : Int) = 1 ∨ (3 : Int) = 1) ∧
      (PTag.single_valued ∈
          properties (leaf ⟨.DiffMap, [3, 2], .inf, some .inf, none⟩).core.cls →
        (3 : Int) = 1) ∧
      (PTag.single_valued ∈
          properties (leaf ⟨.LinOp, [3, 2], .inf, some (.val 0), none⟩).core.cls →
        (3 : Int) = 1)) ∧
    (dunder_add (leaf ⟨.DiffMap, [3, 2], .inf, some .inf, none⟩)
        (leaf ⟨.LinOp, [3, 2], .inf, some (.val 0), none⟩)).map OpSig.cls
      = addKindSpec .DiffMap .LinOp (if (3 : Int) = 1 then 3 else 3) :=
  ⟨⟨rfl, rfl, by norm_num, Or.inl rfl, by decide, by decide⟩,
    add_capability_rule _ _ 3 3 2 rfl rfl (by norm_num) (by norm_num)
      (Or.inl rfl) (by decide) (by decide)⟩


end Pycsou
